import Mathlib

/-!
Verification of the event-interleaved render core of the LPF low-pass filter
audio unit (repository bradhowes/LPF) against its natural-language
specification.

The C++ sources are shallowly embedded:
* float / double sample values are modelled as rationals (ℚ); decimal
  literals of the source are translated to their exact decimal value, and
  IEEE rounding is not modelled;
* the 32-bit unsigned frame counters and the 32-bit change counters are
  modelled as naturals reduced modulo 2^32 exactly where the C++ arithmetic
  wraps;
* calls into the C math library (powf, sinf, cosf, sqrt, log10 and the
  constant M_PI) are supplied through a FloatOracle parameter, so every
  theorem about code built on them holds for every possible behaviour of
  those routines;
* fallible operations return their status, and the unbounded C++ while
  loop of the event processor is run on an explicit fuel that the proofs
  show to be sufficient under the documented preconditions.
-/

namespace LPF

/-- Oracle bundling the C math library routines used by the sources
(M_PI, powf, sinf, cosf, sqrt, log10), so that embedded code is a total
function of the oracle. -/
structure FloatOracle where
  piQ : ℚ
  powQ : ℚ → ℚ → ℚ
  sinQ : ℚ → ℚ
  cosQ : ℚ → ℚ
  sqrtQ : ℚ → ℚ
  log10Q : ℚ → ℚ

/-- State of ParameterRamper<float> from
src/Shared/AudioUnit/Support/ParameterRamper.hpp. The two 32-bit change
counters are kept as naturals below 2^32 by performing the increment of
setValue modulo 2^32. -/
structure ParameterRamper where
  pendingValue : ℚ
  slope : ℚ
  offset : ℚ
  samplesRemaining : Nat
  lastUpdateCounter : Nat
  changeCounter : Nat
deriving DecidableEq

/-- setImmediate from ParameterRamper.hpp: installs a value with no ramp. -/
def ParameterRamper.setImmediate (s : ParameterRamper) (value : ℚ) : ParameterRamper :=
  { s with pendingValue := value, offset := value, slope := 0, samplesRemaining := 0 }

/-- The ParameterRamper constructor: zero counters, then setImmediate. -/
def ParameterRamper.mkInit (value : ℚ) : ParameterRamper :=
  ParameterRamper.setImmediate ⟨0, 0, 0, 0, 0, 0⟩ value

/-- ParameterRamper::reset. -/
def ParameterRamper.reset (s : ParameterRamper) : ParameterRamper :=
  { s.setImmediate s.pendingValue with changeCounter := 0, lastUpdateCounter := 0 }

/-- ParameterRamper::setValue (control thread): store the pending value and
increment the 32-bit change counter. -/
def ParameterRamper.setValue (s : ParameterRamper) (value : ℚ) : ParameterRamper :=
  { s with pendingValue := value, changeCounter := (s.changeCounter + 1) % 2 ^ 32 }

/-- ParameterRamper::getValue. -/
def ParameterRamper.getValue (s : ParameterRamper) : ℚ := s.pendingValue

/-- ParameterRamper::getCurrent: slope_ * samplesRemaining_ + offset_. -/
def ParameterRamper.getCurrent (s : ParameterRamper) : ℚ :=
  s.slope * (s.samplesRemaining : ℚ) + s.offset

/-- ParameterRamper::startRamp (private). -/
def ParameterRamper.startRamp (s : ParameterRamper) (duration : Nat) : ParameterRamper :=
  if duration = 0 then s.setImmediate s.pendingValue
  else
    { s with slope := (s.getCurrent - s.pendingValue) / (duration : ℚ),
             samplesRemaining := duration,
             offset := s.pendingValue }

/-- ParameterRamper::startRamping (render thread): starts a ramp only when
the change counter differs from the last observed one. -/
def ParameterRamper.startRamping (s : ParameterRamper) (duration : Nat) : ParameterRamper :=
  if s.lastUpdateCounter ≠ s.changeCounter then
    ParameterRamper.startRamp { s with lastUpdateCounter := s.changeCounter } duration
  else s

/-- ParameterRamper::getAndStep: current ramped value, then one step along
the ramp. -/
def ParameterRamper.getAndStep (s : ParameterRamper) : ℚ × ParameterRamper :=
  if s.samplesRemaining = 0 then (s.pendingValue, s)
  else (s.getCurrent, { s with samplesRemaining := s.samplesRemaining - 1 })

/-- n successive getAndStep calls, keeping only the final state. -/
def ParameterRamper.stepMany (s : ParameterRamper) : Nat → ParameterRamper
  | 0 => s
  | n + 1 => ParameterRamper.stepMany s.getAndStep.2 n

lemma ParameterRamper.getAndStep_of_pos (s : ParameterRamper) (h : s.samplesRemaining ≠ 0) :
    s.getAndStep = (s.getCurrent, { s with samplesRemaining := s.samplesRemaining - 1 }) := by
  simp [ParameterRamper.getAndStep, h]

lemma ParameterRamper.stepMany_exhaust (n : Nat) :
    ∀ s : ParameterRamper, s.samplesRemaining = n →
      s.stepMany n = { s with samplesRemaining := 0 } := by
  induction n with
  | zero =>
    intro s h
    cases s
    simp_all [ParameterRamper.stepMany]
  | succ n ih =>
    intro s h
    have hne : s.samplesRemaining ≠ 0 := by omega
    rw [ParameterRamper.stepMany, ParameterRamper.getAndStep_of_pos s hne]
    exact ih _ (by simp [h])

/-- C2: after setValue v1 and a startRamping of duration D ≥ 1 that actually
starts (the change counter differs from the last observed one, which a single
setValue always makes true), D getAndStep calls exhaust the ramp; afterwards
getCurrent and getAndStep return the pending value v1 itself — the value is
read back verbatim from the pending slot, so the equality is exact, with no
residual slope error — and a startRamping with duration 0 after a value
change snaps to v1 immediately. -/
theorem ramper_converges_exactly (s : ParameterRamper) (v1 : ℚ) (D : Nat)
    (hD : 1 ≤ D)
    (hchanged : s.lastUpdateCounter ≠ (s.changeCounter + 1) % 2 ^ 32) :
    (((s.setValue v1).startRamping D).stepMany D).samplesRemaining = 0 ∧
    (((s.setValue v1).startRamping D).stepMany D).getAndStep.1 = v1 ∧
    (((s.setValue v1).startRamping D).stepMany D).getAndStep.2 =
      ((s.setValue v1).startRamping D).stepMany D ∧
    (((s.setValue v1).startRamping D).stepMany D).getCurrent = v1 ∧
    ((s.setValue v1).startRamping 0).getCurrent = v1 := by
  have hDne : D ≠ 0 := by omega
  have hch : s.lastUpdateCounter ≠ (s.changeCounter + 1) % 4294967296 := by
    simpa using hchanged
  have hramp : (s.setValue v1).startRamping D =
      { s with pendingValue := v1,
               changeCounter := (s.changeCounter + 1) % 2 ^ 32,
               lastUpdateCounter := (s.changeCounter + 1) % 2 ^ 32,
               slope := (ParameterRamper.getCurrent
                  { s with pendingValue := v1,
                           changeCounter := (s.changeCounter + 1) % 2 ^ 32,
                           lastUpdateCounter := (s.changeCounter + 1) % 2 ^ 32 } - v1) / (D : ℚ),
               samplesRemaining := D,
               offset := v1 } := by
    simp [ParameterRamper.setValue, ParameterRamper.startRamping, hch,
      ParameterRamper.startRamp, hDne]
  have hfinal := ParameterRamper.stepMany_exhaust D ((s.setValue v1).startRamping D)
    (by rw [hramp])
  have hpend : (((s.setValue v1).startRamping D).stepMany D).pendingValue = v1 := by
    rw [hfinal, hramp]
  have hoff : (((s.setValue v1).startRamping D).stepMany D).offset = v1 := by
    rw [hfinal, hramp]
  have hrem : (((s.setValue v1).startRamping D).stepMany D).samplesRemaining = 0 := by
    rw [hfinal]
  refine ⟨hrem, ?_, ?_, ?_, ?_⟩
  · simp [ParameterRamper.getAndStep, hrem, hpend]
  · simp [ParameterRamper.getAndStep, hrem]
  · simp [ParameterRamper.getCurrent, hrem, hoff]
  · simp [ParameterRamper.setValue, ParameterRamper.startRamping, hch,
      ParameterRamper.startRamp, ParameterRamper.setImmediate, ParameterRamper.getCurrent]

/-- Witness for ramper_converges_exactly at a concrete input. -/
theorem ramper_converges_exactly_witness :
    1 ≤ 3 ∧
    (ParameterRamper.mkInit 5).lastUpdateCounter ≠
      ((ParameterRamper.mkInit 5).changeCounter + 1) % 2 ^ 32 ∧
    ((((ParameterRamper.mkInit 5).setValue 2).startRamping 3).stepMany 3).getCurrent = 2 :=
  ⟨by decide, by decide,
    (ramper_converges_exactly (ParameterRamper.mkInit 5) 2 3 (by decide) (by decide)).2.2.2.1⟩

lemma ParameterRamper.startRamping_syncs (s : ParameterRamper) (D : Nat) :
    (s.startRamping D).lastUpdateCounter = (s.startRamping D).changeCounter := by
  by_cases h : s.lastUpdateCounter ≠ s.changeCounter
  · simp only [ParameterRamper.startRamping, if_pos h, ParameterRamper.startRamp]
    split <;> simp [ParameterRamper.setImmediate]
  · push_neg at h
    simp [ParameterRamper.startRamping, h]

/-- C10: startRamping only begins a new ramp when setValue has run since the
previous startRamping, detected through the change counter. If the counters
agree (no unobserved setValue), startRamping of any duration is the
identity, and immediately after any startRamping the counters agree again —
so repeated startRamping calls with no intervening setValue leave the whole
ramp state (slope, offset, samplesRemaining) unchanged even though the
kernel calls startRamping at every render segment. -/
theorem ramper_startRamping_needs_setValue (s : ParameterRamper) (D D' : Nat) :
    (s.startRamping D).startRamping D' = s.startRamping D ∧
    (s.lastUpdateCounter = s.changeCounter → s.startRamping D' = s) := by
  constructor
  · have h := ParameterRamper.startRamping_syncs s D
    generalize hts : s.startRamping D = t at h ⊢
    simp [ParameterRamper.startRamping, h]
  · intro h
    simp [ParameterRamper.startRamping, h]

/-- Witness for ramper_startRamping_needs_setValue at a concrete input. -/
theorem ramper_startRamping_needs_setValue_witness :
    (ParameterRamper.mkInit 7).lastUpdateCounter = (ParameterRamper.mkInit 7).changeCounter ∧
    (ParameterRamper.mkInit 7).startRamping 5 = ParameterRamper.mkInit 7 :=
  ⟨by decide, (ramper_startRamping_needs_setValue (ParameterRamper.mkInit 7) 5 5).2 (by decide)⟩

/-- The event kinds distinguished by the dispatch switch of
renderEventsUntil in src/Shared/Kernel/KernelEventProcessor.hpp: parameter
events (AURenderEventParameter / ParameterRamp), MIDI events, and the
default case (consumed without dispatch). -/
inductive EventKind
  | parameter
  | midi
  | other
deriving DecidableEq

/-- One AURenderEvent list node: absolute sample timestamp (AUEventSampleTime,
a 64-bit signed integer, modelled as ℤ) and kind. -/
structure Event where
  time : Int
  kind : EventKind
deriving DecidableEq

/-- The observable steps of one render call, in order: a contiguous segment
of frames handed to renderFrames (with its frame count and buffer offset),
or one event consumed and dispatched by renderEventsUntil. -/
inductive Action
  | renderSeg (frames offset : Nat)
  | event (e : Event)
deriving DecidableEq

/-- KernelEventProcessor::renderEventsUntil: consume every leading event
whose timestamp is at most now, in list order, returning the pair
(consumed events, remaining events). -/
def renderEventsUntil (now : Int) (events : List Event) : List Event × List Event :=
  (events.takeWhile (fun e => decide (e.time ≤ now)),
   events.dropWhile (fun e => decide (e.time ≤ now)))

/-- framesThisSegment of the render loop: AUAudioFrameCount(max(e.time − now, 0)),
the cast of a nonnegative Int64 into a 32-bit unsigned count. -/
def segFrames (now : Int) (e : Event) : Nat :=
  ((max (e.time - now) 0) % 2 ^ 32).toNat

/-- Wrapping 32-bit unsigned subtraction, for framesRemaining -= framesThisSegment. -/
def u32sub (a b : Nat) : Nat := (a + 2 ^ 32 - b) % 2 ^ 32

/-- The while loop of KernelEventProcessor::render
(src/Shared/Kernel/KernelEventProcessor.hpp, lines 104-126), as a trace of
renderFrames segments and consumed events. The C++ loop has no fuel; the
explicit fuel only forces totality, and the theorems below show that
events.length + 1 fuel is never exhausted under the documented
preconditions. -/
def renderLoop (frameCount : Nat) :
    Nat → Nat → Int → List Event → Option (List Action)
  | 0, _, _, _ => none
  | fuel + 1, framesRemaining, now, events =>
    if framesRemaining = 0 then some []
    else
      match events with
      | [] => some [Action.renderSeg framesRemaining (frameCount - framesRemaining)]
      | e :: _ =>
        let seg := segFrames now e
        let pre : List Action :=
          if 0 < seg then [Action.renderSeg seg (frameCount - framesRemaining)] else []
        let framesRemaining1 := if 0 < seg then u32sub framesRemaining seg else framesRemaining
        let now1 := if 0 < seg then now + (seg : Int) else now
        (renderLoop frameCount fuel framesRemaining1 now1 (renderEventsUntil now1 events).2).map
          (fun tail => pre ++ (renderEventsUntil now1 events).1.map Action.event ++ tail)

/-- KernelEventProcessor::render: run the loop from now = timestamp with
framesRemaining = frameCount. -/
def render (t0 : Int) (frameCount : Nat) (events : List Event) : Option (List Action) :=
  renderLoop frameCount (events.length + 1) frameCount t0 events

/-- Frames contributed by one action. -/
def Action.frames : Action → Nat
  | .renderSeg n _ => n
  | .event _ => 0

/-- Total frames rendered along a trace. -/
def renderedFrames (tr : List Action) : Nat := (tr.map Action.frames).sum

/-- The events consumed along a trace, in order. -/
def eventsOf (tr : List Action) : List Event :=
  tr.filterMap fun a =>
    match a with
    | .event e => some e
    | .renderSeg _ _ => none

@[simp] lemma eventsOf_nil : eventsOf [] = [] := rfl

@[simp] lemma eventsOf_cons_seg (n off : Nat) (tr : List Action) :
    eventsOf (Action.renderSeg n off :: tr) = eventsOf tr := rfl

@[simp] lemma eventsOf_cons_event (e : Event) (tr : List Action) :
    eventsOf (Action.event e :: tr) = e :: eventsOf tr := rfl

@[simp] lemma eventsOf_append (a b : List Action) :
    eventsOf (a ++ b) = eventsOf a ++ eventsOf b := by
  simp [eventsOf]

@[simp] lemma eventsOf_map_event (c : List Event) :
    eventsOf (c.map Action.event) = c := by
  induction c with
  | nil => rfl
  | cons x xs ih => simp [ih]

@[simp] lemma renderedFrames_nil : renderedFrames [] = 0 := rfl

@[simp] lemma renderedFrames_cons (a : Action) (tr : List Action) :
    renderedFrames (a :: tr) = a.frames + renderedFrames tr := by
  simp [renderedFrames]

@[simp] lemma renderedFrames_append (a b : List Action) :
    renderedFrames (a ++ b) = renderedFrames a + renderedFrames b := by
  simp [renderedFrames]

@[simp] lemma renderedFrames_map_event (c : List Event) :
    renderedFrames (c.map Action.event) = 0 := by
  induction c with
  | nil => rfl
  | cons x xs ih => simp [ih, Action.frames]

/-- Step-by-step correctness of a trace: starting from buffer offset done at
time now, every rendered segment is nonempty and starts at the running
buffer offset, and every event is dispatched exactly when the running time
equals its timestamp. -/
def TraceOK : Nat → Int → List Action → Prop
  | _, _, [] => True
  | done, now, Action.renderSeg n off :: tr =>
      0 < n ∧ off = done ∧ TraceOK (done + n) (now + (n : Int)) tr
  | done, now, Action.event e :: tr => e.time = now ∧ TraceOK done now tr

@[simp] lemma traceOK_nil (done : Nat) (now : Int) : TraceOK done now [] := trivial

@[simp] lemma traceOK_cons_seg (done : Nat) (now : Int) (n off : Nat) (tr : List Action) :
    TraceOK done now (Action.renderSeg n off :: tr) ↔
      0 < n ∧ off = done ∧ TraceOK (done + n) (now + (n : Int)) tr := Iff.rfl

@[simp] lemma traceOK_cons_event (done : Nat) (now : Int) (e : Event) (tr : List Action) :
    TraceOK done now (Action.event e :: tr) ↔ e.time = now ∧ TraceOK done now tr := Iff.rfl

lemma traceOK_events_prefix (done : Nat) (now : Int) (c : List Event) (tr : List Action)
    (hc : ∀ x ∈ c, x.time = now) (h : TraceOK done now tr) :
    TraceOK done now (c.map Action.event ++ tr) := by
  induction c with
  | nil => simpa
  | cons x xs ih =>
    exact ⟨hc x (by simp), ih fun y hy => hc y (by simp [hy])⟩

lemma traceOK_event_split (p : List Action) :
    ∀ (done : Nat) (now : Int) (e : Event) (q : List Action),
      TraceOK done now (p ++ Action.event e :: q) →
        e.time = now + (renderedFrames p : Int) := by
  induction p with
  | nil =>
    intro done now e q h
    simpa using h.1
  | cons a p ih =>
    intro done now e q h
    cases a with
    | renderSeg n off =>
      have h2 := ih (done + n) (now + (n : Int)) e q h.2.2
      simp only [renderedFrames_cons, Action.frames]
      push_cast
      push_cast at h2
      omega
    | event f =>
      have h2 := ih done now e q h.2
      simpa [Action.frames] using h2

lemma traceOK_seg_split (p : List Action) :
    ∀ (done : Nat) (now : Int) (n off : Nat) (q : List Action),
      TraceOK done now (p ++ Action.renderSeg n off :: q) →
        0 < n ∧ off = done + renderedFrames p := by
  induction p with
  | nil =>
    intro done now n off q h
    exact ⟨h.1, by simpa using h.2.1⟩
  | cons a p ih =>
    intro done now n off q h
    cases a with
    | renderSeg m o =>
      have h2 := ih (done + m) (now + (m : Int)) n off q h.2.2
      refine ⟨h2.1, ?_⟩
      simp only [renderedFrames_cons, Action.frames]
      omega
    | event f =>
      have h2 := ih done now n off q h.2
      refine ⟨h2.1, ?_⟩
      simpa [Action.frames] using h2.2

lemma mem_eventsOf_split (tr : List Action) (e : Event) (h : e ∈ eventsOf tr) :
    ∃ p q, tr = p ++ Action.event e :: q := by
  induction tr with
  | nil => simp at h
  | cons a tr ih =>
    cases a with
    | renderSeg n off =>
      rw [eventsOf_cons_seg] at h
      obtain ⟨p, q, rfl⟩ := ih h
      exact ⟨Action.renderSeg n off :: p, q, rfl⟩
    | event x =>
      rw [eventsOf_cons_event] at h
      rcases List.mem_cons.mp h with rfl | h2
      · exact ⟨[], tr, rfl⟩
      · obtain ⟨p, q, rfl⟩ := ih h2
        exact ⟨Action.event x :: p, q, rfl⟩

lemma double_split_cases (p : List Action) :
    ∀ (q p' q' : List Action) (a b : Action),
      p ++ a :: q = p' ++ b :: q' → a ≠ b →
      (∃ m, p' = p ++ a :: m) ∨ (∃ m, p = p' ++ b :: m) := by
  induction p with
  | nil =>
    intro q p' q' a b h hne
    cases p' with
    | nil =>
      simp only [List.nil_append] at h
      exact absurd (List.cons.inj h).1 hne
    | cons c p'' =>
      simp only [List.nil_append, List.cons_append] at h
      obtain ⟨rfl, h2⟩ := List.cons.inj h
      exact Or.inl ⟨p'', by simp⟩
  | cons c p2 ih =>
    intro q p' q' a b h hne
    cases p' with
    | nil =>
      simp only [List.cons_append, List.nil_append] at h
      obtain ⟨rfl, h2⟩ := List.cons.inj h
      exact Or.inr ⟨p2, by simp⟩
    | cons c' p2' =>
      simp only [List.cons_append] at h
      obtain ⟨rfl, h2⟩ := List.cons.inj h
      rcases ih q p2' q' a b h2 hne with ⟨m, hm⟩ | ⟨m, hm⟩
      · exact Or.inl ⟨m, by simp [hm]⟩
      · exact Or.inr ⟨m, by simp [hm]⟩

lemma segFrames_eq (now : Int) (e : Event) (h1 : now ≤ e.time) (h2 : e.time - now < 2 ^ 32) :
    segFrames now e = (e.time - now).toNat := by
  unfold segFrames
  rw [max_eq_left (by omega), Int.emod_eq_of_lt (by omega) (by omega)]

lemma mem_dropWhile_gt (now : Int) :
    ∀ l : List Event, l.Pairwise (fun a b => a.time ≤ b.time) →
      ∀ x ∈ l.dropWhile (fun e => decide (e.time ≤ now)), now < x.time := by
  intro l
  induction l with
  | nil => simp
  | cons e es ih =>
    intro hp x hx
    by_cases h : e.time ≤ now
    · rw [List.dropWhile_cons_of_pos (by simpa using h)] at hx
      exact ih (List.Pairwise.of_cons hp) x hx
    · rw [List.dropWhile_cons_of_neg (by simpa using h)] at hx
      push_neg at h
      rcases List.mem_cons.mp hx with rfl | h2
      · exact h
      · exact lt_of_lt_of_le h (List.rel_of_pairwise_cons hp h2)

lemma takeWhile_time_eq (T : Int) (e : Event) (es : List Event)
    (hp : (e :: es).Pairwise (fun a b => a.time ≤ b.time))
    (he : e.time = T) :
    ∀ x ∈ (e :: es).takeWhile (fun ev => decide (ev.time ≤ T)), x.time = T := by
  intro x hx
  have hle : x.time ≤ T := by simpa using List.mem_takeWhile_imp hx
  have hmem : x ∈ e :: es := (List.takeWhile_prefix _).subset hx
  rcases List.mem_cons.mp hmem with rfl | h2
  · exact he
  · exact le_antisymm hle (he ▸ List.rel_of_pairwise_cons hp h2)

lemma renderLoop_spec (frameCount : Nat) :
    ∀ (fuel : Nat) (events : List Event) (framesRemaining : Nat) (now : Int),
      events.length < fuel →
      framesRemaining ≤ frameCount →
      frameCount < 2 ^ 32 →
      events.Pairwise (fun a b => a.time ≤ b.time) →
      (∀ e ∈ events, now ≤ e.time ∧ e.time < now + (framesRemaining : Int)) →
      ∃ tr, renderLoop frameCount fuel framesRemaining now events = some tr ∧
        eventsOf tr = events ∧
        renderedFrames tr = framesRemaining ∧
        TraceOK (frameCount - framesRemaining) now tr := by
  intro fuel
  induction fuel with
  | zero =>
    intro events _ _ hlen
    omega
  | succ fuel ih =>
    intro events framesRemaining now hfuel hle hfc hsorted hin
    by_cases hfr : framesRemaining = 0
    · subst hfr
      have hev : events = [] := by
        cases events with
        | nil => rfl
        | cons e es =>
          have h := hin e (by simp)
          omega
      subst hev
      exact ⟨[], by simp [renderLoop], by simp, by simp, by simp⟩
    · cases events with
      | nil =>
        refine ⟨[Action.renderSeg framesRemaining (frameCount - framesRemaining)], ?_, ?_, ?_, ?_⟩
        · simp [renderLoop, hfr]
        · simp
        · simp [Action.frames]
        · simp [Nat.pos_of_ne_zero hfr]
      | cons e es =>
        have hhead := hin e (by simp)
        have hseg : segFrames now e = (e.time - now).toNat :=
          segFrames_eq now e hhead.1 (by omega)
        have hsegle : ((e.time - now).toNat : Int) = e.time - now := Int.toNat_of_nonneg (by omega)
        have hseglt : (e.time - now).toNat < framesRemaining := by omega
        have hnow1 : (if 0 < segFrames now e then now + (segFrames now e : Int) else now) =
            e.time := by
          rw [hseg]
          split <;> omega
        have hfr1 : (if 0 < segFrames now e
              then u32sub framesRemaining (segFrames now e) else framesRemaining) =
            framesRemaining - (e.time - now).toNat := by
          rw [hseg]
          unfold u32sub
          split <;> omega
        -- the remaining-event list after consuming everything due at e.time
        have hrest_sorted :
            ((e :: es).dropWhile (fun ev => decide (ev.time ≤ e.time))).Pairwise
              (fun a b => a.time ≤ b.time) :=
          List.Pairwise.sublist (List.dropWhile_sublist _) hsorted
        have hconsumed_ne :
            (e :: es).dropWhile (fun ev => decide (ev.time ≤ e.time)) =
              es.dropWhile (fun ev => decide (ev.time ≤ e.time)) :=
          List.dropWhile_cons_of_pos (by simp)
        have hrest_len :
            ((e :: es).dropWhile (fun ev => decide (ev.time ≤ e.time))).length < fuel := by
          rw [hconsumed_ne]
          have h2 := (List.dropWhile_sublist
            (l := es) (p := fun ev => decide (ev.time ≤ e.time))).length_le
          simp only [List.length_cons] at hfuel
          omega
        have hrest_in : ∀ x ∈ (e :: es).dropWhile (fun ev => decide (ev.time ≤ e.time)),
            e.time ≤ x.time ∧
              x.time < e.time + ((framesRemaining - (e.time - now).toNat : Nat) : Int) := by
          intro x hx
          have hgt := mem_dropWhile_gt e.time (e :: es) hsorted x hx
          have hmem : x ∈ e :: es := (List.dropWhile_sublist _).subset hx
          have hx2 := hin x hmem
          have hcast : ((framesRemaining - (e.time - now).toNat : Nat) : Int) =
              (framesRemaining : Int) - (e.time - now) := by omega
          constructor
          · omega
          · rw [hcast]
            omega
        obtain ⟨tail, htail, htev, htrend, htok⟩ :=
          ih ((e :: es).dropWhile (fun ev => decide (ev.time ≤ e.time)))
            (framesRemaining - (e.time - now).toNat) e.time hrest_len (by omega) hfc
            hrest_sorted hrest_in
        have hcons_eq : ∀ x ∈ (e :: es).takeWhile (fun ev => decide (ev.time ≤ e.time)),
            x.time = e.time := takeWhile_time_eq e.time e es hsorted rfl
        refine ⟨(if 0 < segFrames now e
              then [Action.renderSeg (segFrames now e) (frameCount - framesRemaining)] else []) ++
            ((e :: es).takeWhile (fun ev => decide (ev.time ≤ e.time))).map Action.event ++ tail,
            ?_, ?_, ?_, ?_⟩
        · show renderLoop frameCount (fuel + 1) framesRemaining now (e :: es) = _
          simp only [renderLoop, hfr, if_false, renderEventsUntil, hnow1, hfr1]
          rw [htail]
          rfl
        · have hpre : eventsOf (if 0 < segFrames now e
              then [Action.renderSeg (segFrames now e) (frameCount - framesRemaining)] else []) =
              [] := by
            split <;> rfl
          rw [eventsOf_append, eventsOf_append, eventsOf_map_event, hpre, htev,
            List.nil_append, List.takeWhile_append_dropWhile]
        · have hprerend : renderedFrames (if 0 < segFrames now e
              then [Action.renderSeg (segFrames now e) (frameCount - framesRemaining)] else []) =
              (e.time - now).toNat := by
            rw [hseg]
            by_cases hz : 0 < (e.time - now).toNat
            · simp [hz, Action.frames]
            · simp only [if_neg hz, renderedFrames_nil]
              omega
          rw [renderedFrames_append, renderedFrames_append, renderedFrames_map_event,
            hprerend, htrend]
          omega
        · by_cases h0 : 0 < segFrames now e
          · have hdone : frameCount - framesRemaining + segFrames now e =
                frameCount - (framesRemaining - (e.time - now).toNat) := by
              rw [hseg]
              omega
            have hnow2 : now + (segFrames now e : Int) = e.time := by
              rw [hseg]
              omega
            rw [if_pos h0, List.append_assoc, List.singleton_append]
            refine (traceOK_cons_seg _ _ _ _ _).mpr ⟨h0, rfl, ?_⟩
            rw [hdone, hnow2]
            exact traceOK_events_prefix _ _ _ _ hcons_eq htok
          · rw [if_neg h0, List.nil_append]
            have hz : (e.time - now).toNat = 0 := by
              by_contra hzz
              exact h0 (by omega)
            have hnow3 : e.time = now := by omega
            have hdone : frameCount - (framesRemaining - (e.time - now).toNat) =
                frameCount - framesRemaining := by omega
            rw [← hnow3]
            refine traceOK_events_prefix _ _ _ _ hcons_eq ?_
            rw [← hdone]
            exact htok

/-- C1: for a render call with a timestamp-ordered event list whose
timestamps lie within [T0, T0 + frameCount), the loop of
KernelEventProcessor::render produces a trace in which: all input events
are consumed and dispatched, in list order; the rendered segments are
nonempty, start exactly at the running buffer offset, and together cover
all frameCount frames; every event is dispatched exactly when the number
of frames rendered so far equals its sample offset (so all frames strictly
before its timestamp are rendered before it, and it is never dispatched
early); no rendered segment crosses the timestamp of any event; and
coincident events are dispatched consecutively, with no rendering between
them. -/
theorem render_partitions_frames_at_events (t0 : Int) (frameCount : Nat) (events : List Event)
    (hfc : frameCount < 2 ^ 32)
    (hsorted : events.Pairwise (fun a b => a.time ≤ b.time))
    (hin : ∀ e ∈ events, t0 ≤ e.time ∧ e.time < t0 + (frameCount : Int)) :
    ∃ tr, render t0 frameCount events = some tr ∧
      eventsOf tr = events ∧
      renderedFrames tr = frameCount ∧
      (∀ p e q, tr = p ++ Action.event e :: q → e.time = t0 + (renderedFrames p : Int)) ∧
      (∀ p n off q, tr = p ++ Action.renderSeg n off :: q →
        0 < n ∧ off = renderedFrames p ∧
        ∀ e ∈ events,
          ¬(t0 + (off : Int) < e.time ∧ e.time < t0 + (off : Int) + (n : Int))) ∧
      (∀ p e mid f q, tr = p ++ Action.event e :: (mid ++ Action.event f :: q) →
        e.time = f.time → ∀ a ∈ mid, ∃ ev, a = Action.event ev) := by
  obtain ⟨tr, heq, hev, hrend, hok⟩ := renderLoop_spec frameCount (events.length + 1) events
    frameCount t0 (by omega) le_rfl hfc hsorted hin
  have hok0 : TraceOK 0 t0 tr := by
    have h0 : frameCount - frameCount = 0 := by omega
    rwa [h0] at hok
  have hevsplit : ∀ p e q, tr = p ++ Action.event e :: q →
      e.time = t0 + (renderedFrames p : Int) := by
    intro p e q hsp
    exact traceOK_event_split p 0 t0 e q (hsp ▸ hok0)
  have hsegsplit : ∀ p n off q, tr = p ++ Action.renderSeg n off :: q →
      0 < n ∧ off = renderedFrames p := by
    intro p n off q hsp
    have h2 := traceOK_seg_split p 0 t0 n off q (hsp ▸ hok0)
    exact ⟨h2.1, by omega⟩
  refine ⟨tr, heq, hev, hrend, hevsplit, ?_, ?_⟩
  · intro p n off q hsp
    obtain ⟨hn, hoff⟩ := hsegsplit p n off q hsp
    refine ⟨hn, hoff, ?_⟩
    intro e hee
    have hmem : e ∈ eventsOf tr := hev ▸ hee
    obtain ⟨p2, q2, hsp2⟩ := mem_eventsOf_split tr e hmem
    have hne : Action.renderSeg n off ≠ Action.event e := by simp
    rcases double_split_cases p q p2 q2 (Action.renderSeg n off) (Action.event e)
        (hsp.symm.trans hsp2) hne with
      ⟨m, hm⟩ | ⟨m, hm⟩
    · -- the event lies after the segment: e.time ≥ t0 + off + n
      have h3 := hevsplit p2 e q2 hsp2
      have h4 : renderedFrames p2 = renderedFrames p + n + renderedFrames m := by
        rw [hm, renderedFrames_append, renderedFrames_cons]
        simp only [Action.frames]
        omega
      rw [h3, h4, hoff]
      push_cast
      omega
    · -- the event lies before the segment: e.time ≤ t0 + off
      have h3 := hevsplit p2 e q2 hsp2
      have h4 : renderedFrames p = renderedFrames p2 + renderedFrames m := by
        rw [hm, renderedFrames_append, renderedFrames_cons]
        simp only [Action.frames]
        omega
      rw [h3, hoff, h4]
      push_cast
      omega
  · intro p e mid f q hsp htime a hamid
    have h1 := hevsplit p e (mid ++ Action.event f :: q) hsp
    have h2 := hevsplit (p ++ Action.event e :: mid) f q (by simp [hsp])
    have hmid0 : renderedFrames mid = 0 := by
      rw [h1] at htime
      rw [h2] at htime
      simp only [renderedFrames_append, renderedFrames_cons, Action.frames] at htime
      omega
    cases a with
    | event ev => exact ⟨ev, rfl⟩
    | renderSeg n off =>
      obtain ⟨m1, m2, hmm⟩ := List.append_of_mem hamid
      have hsp3 : tr = (p ++ Action.event e :: m1) ++
          Action.renderSeg n off :: (m2 ++ Action.event f :: q) := by
        rw [hsp, hmm]
        simp
      have h5 := (hsegsplit _ n off _ hsp3).1
      have h6 : renderedFrames mid = renderedFrames m1 + n + renderedFrames m2 := by
        rw [hmm, renderedFrames_append, renderedFrames_cons]
        simp only [Action.frames]
        omega
      omega

/-- Witness for render_partitions_frames_at_events at a concrete input:
three events, two of them coincident, inside an 8-frame render starting at
sample time 100. -/
theorem render_partitions_frames_at_events_witness :
    8 < 2 ^ 32 ∧
    ([⟨103, EventKind.parameter⟩, ⟨103, EventKind.midi⟩,
        ⟨105, EventKind.parameter⟩] : List Event).Pairwise (fun a b => a.time ≤ b.time) ∧
    (∀ e ∈ ([⟨103, EventKind.parameter⟩, ⟨103, EventKind.midi⟩,
        ⟨105, EventKind.parameter⟩] : List Event),
      (100 : Int) ≤ e.time ∧ e.time < 100 + (8 : Int)) ∧
    ∃ tr, render 100 8 [⟨103, EventKind.parameter⟩, ⟨103, EventKind.midi⟩,
        ⟨105, EventKind.parameter⟩] = some tr ∧
      eventsOf tr = [⟨103, EventKind.parameter⟩, ⟨103, EventKind.midi⟩,
        ⟨105, EventKind.parameter⟩] ∧
      renderedFrames tr = 8 ∧
      (∀ p e q, tr = p ++ Action.event e :: q → e.time = 100 + (renderedFrames p : Int)) ∧
      (∀ p n off q, tr = p ++ Action.renderSeg n off :: q →
        0 < n ∧ off = renderedFrames p ∧
        ∀ e ∈ ([⟨103, EventKind.parameter⟩, ⟨103, EventKind.midi⟩,
            ⟨105, EventKind.parameter⟩] : List Event),
          ¬(100 + (off : Int) < e.time ∧ e.time < 100 + (off : Int) + (n : Int))) ∧
      (∀ p e mid f q, tr = p ++ Action.event e :: (mid ++ Action.event f :: q) →
        e.time = f.time → ∀ a ∈ mid, ∃ ev, a = Action.event ev) :=
  ⟨by decide, by decide, by decide,
    render_partitions_frames_at_events 100 8
      [⟨103, EventKind.parameter⟩, ⟨103, EventKind.midi⟩, ⟨105, EventKind.parameter⟩]
      (by decide) (by decide) (by decide)⟩

/-- Per-channel delay history of the biquad recursion (FilterState in
src/Shared/AudioUnit/Support/FilterDSPKernel.hpp). -/
structure FilterState where
  x1 : ℚ
  x2 : ℚ
  y1 : ℚ
  y2 : ℚ
deriving DecidableEq

/-- The all-zero delay history. -/
def FilterState.zero : FilterState := ⟨0, 0, 0, 0⟩

/-- FilterState::clear: set every field to zero. -/
def FilterState.clear (_ : FilterState) : FilterState := FilterState.zero

/-- FilterState::convertBadValuesToZero: keep x only when
1.0E-15 <= fabs(x) <= 1.0E15, else replace it by zero. IEEE NaN and
infinity have no rational representative; every value this model can
produce is decided by the magnitude test exactly as in the source. -/
def convertBadValuesToZero (x : ℚ) : ℚ :=
  if 1 / 10 ^ 15 ≤ |x| ∧ |x| ≤ 10 ^ 15 then x else 0

/-- FilterState::convertBadStateValuesToZero. -/
def FilterState.convertBadStateValuesToZero (s : FilterState) : FilterState :=
  ⟨convertBadValuesToZero s.x1, convertBadValuesToZero s.x2,
   convertBadValuesToZero s.y1, convertBadValuesToZero s.y2⟩

/-- BiquadCoefficients of the FilterDSPKernel variant. -/
structure BiquadCoefficients where
  a1 : ℚ
  a2 : ℚ
  b0 : ℚ
  b1 : ℚ
  b2 : ℚ
deriving DecidableEq

/-- BiquadCoefficients::calculateLopassParams, with the C math library
supplied by the oracle (r = 10^(0.05 * -resonance), k = 0.5 r sin(pi f),
c1 = (1-k)/(1+k), c2 = (1+c1) cos(pi f), c3 = (1+c1-c2)/4). -/
def calculateLopassParams (o : FloatOracle) (frequency resonance : ℚ) : BiquadCoefficients :=
  let r := o.powQ 10 (1 / 20 * -resonance)
  let k := 1 / 2 * r * o.sinQ (o.piQ * frequency)
  let c1 := (1 - k) / (1 + k)
  let c2 := (1 + c1) * o.cosQ (o.piQ * frequency)
  let c3 := (1 + c1 - c2) * (1 / 4)
  { b0 := c3, b1 := 2 * c3, b2 := c3, a1 := -c2, a2 := c1 }

/-- One frame of the biquad recursion for one channel — the inner loop body
of FilterDSPKernel::renderFrames: output sample and shifted delay state. -/
def biquadFrame (c : BiquadCoefficients) (s : FilterState) (x0 : ℚ) : ℚ × FilterState :=
  let y0 := c.b0 * x0 + c.b1 * s.x1 + c.b2 * s.x2 - c.a1 * s.y1 - c.a2 * s.y2
  (y0, ⟨x0, s.x1, y0, s.y1⟩)

/-- FilterDSPKernel state (src/Shared/AudioUnit/Support/FilterDSPKernel.hpp). -/
structure AUFilterKernel where
  channelStates : List FilterState
  coeffs : BiquadCoefficients
  sampleRate : ℚ
  nyquist : ℚ
  inverseNyquist : ℚ
  rampDuration : Nat
  cutoffRamper : ParameterRamper
  resonanceRamper : ParameterRamper
  bypassed : Bool
deriving DecidableEq

/-- The FilterDSPKernel constructor. rampDuration_ is an uninitialised
member until setFormat runs; it is modelled as 0. -/
def AUFilterKernel.mkInit : AUFilterKernel :=
  { channelStates := [], coeffs := ⟨0, 0, 0, 0, 0⟩, sampleRate := 44100,
    nyquist := 22050, inverseNyquist := 1 / 22050, rampDuration := 0,
    cutoffRamper := ParameterRamper.mkInit (400 / 44100),
    resonanceRamper := ParameterRamper.mkInit 20, bypassed := false }

/-- std::vector<FilterState>::resize: keeps the existing elements up to the
new size and value-initialises (zeroes) only newly added ones. -/
def resizeStates (l : List FilterState) (n : Nat) : List FilterState :=
  l.take n ++ List.replicate (n - l.length) FilterState.zero

/-- FilterDSPKernel::setFormat (lines 115-124): resize the channel-state
vector, recompute the Nyquist data and the 20 ms ramp duration, and reset
the two parameter rampers. The resize leaves the delay histories of
channels that already existed untouched. -/
def AUFilterKernel.setFormat (s : AUFilterKernel) (sampleRate : ℚ) (channelCount : Nat) :
    AUFilterKernel :=
  { s with channelStates := resizeStates s.channelStates channelCount,
           sampleRate := sampleRate,
           nyquist := 1 / 2 * sampleRate,
           inverseNyquist := 1 / (1 / 2 * sampleRate),
           rampDuration := ⌊(1 / 50 : ℚ) * sampleRate⌋.toNat,
           cutoffRamper := s.cutoffRamper.reset,
           resonanceRamper := s.resonanceRamper.reset }

/-- FilterDSPKernel::reset: reset the rampers and clear every channel
state. -/
def AUFilterKernel.reset (s : AUFilterKernel) : AUFilterKernel :=
  { s with cutoffRamper := s.cutoffRamper.reset,
           resonanceRamper := s.resonanceRamper.reset,
           channelStates := s.channelStates.map FilterState.clear }

/-- Modelled from the spec: the render-format change path. The Objective-C
adapter that reacts to a host format change is not among the sources here
(only its headers are), so, following the spec sentence (on format change:
recompute Nyquist frequency/period and reset all per-channel filter
state), the path is modelled as FilterDSPKernel::setFormat followed by
FilterDSPKernel::reset, both embedded from the kernel source above. -/
def AUFilterKernel.formatChange (s : AUFilterKernel) (sampleRate : ℚ) (channelCount : Nat) :
    AUFilterKernel :=
  (s.setFormat sampleRate channelCount).reset

/-- C4: after a format change the per-channel delay histories are exactly
channelCount copies of the zero state — channels that already existed
before the change are cleared too, before any further render. -/
theorem formatChange_clears_every_channel (s : AUFilterKernel) (sr : ℚ) (n : Nat) :
    (s.formatChange sr n).channelStates = List.replicate n FilterState.zero := by
  have hmap : ∀ L : List FilterState,
      L.map FilterState.clear = List.replicate L.length FilterState.zero := by
    intro L
    induction L with
    | nil => rfl
    | cons a L ih => simp [FilterState.clear, ih, List.replicate_succ]
  have hlen : (resizeStates s.channelStates n).length = n := by
    unfold resizeStates
    simp
    omega
  show (resizeStates s.channelStates n).map FilterState.clear = _
  rw [hmap, hlen]

/-- setFormat alone does not clear pre-existing channel states: the first
min(channelCount, old length) delay histories survive its resize verbatim;
it is the reset step of the format-change path that zeroes them. -/
theorem setFormat_keeps_existing_states (s : AUFilterKernel) (sr : ℚ) (n : Nat) :
    (s.setFormat sr n).channelStates = s.channelStates.take n ++
      List.replicate (n - s.channelStates.length) FilterState.zero := rfl

/-- memcpy over arrays of 4-byte float samples: byteCount bytes overwrite
the samples at positions [offset, offset + byteCount / 4) of the
destination with the source samples at the same positions. When byteCount
is not a multiple of 4 the C call would also overwrite part of the next
sample; the model leaves that trailing partial sample unchanged (the
theorems below use byte counts divisible by 4, where the model is exact). -/
def memcpySamples (dst src : List ℚ) (offset byteCount : Nat) : List ℚ :=
  (List.range dst.length).map fun i =>
    if offset ≤ i ∧ i < offset + byteCount / 4 then src.getD i 0 else dst.getD i 0

/-- The bypass pass-through for one channel in
KernelEventProcessor::renderFrames (src/Shared/Kernel/KernelEventProcessor.hpp,
lines 179-190): when the channel's input and output buffers alias, the
channel is skipped; otherwise memcpy(out + processedFrameCount,
in + processedFrameCount, frameCount) copies frameCount BYTES starting at
the segment offset. -/
def kernelBypassChannel (aliased : Bool) (dst src : List ℚ)
    (processedFrameCount frameCount : Nat) : List ℚ :=
  if aliased then dst else memcpySamples dst src processedFrameCount frameCount

/-- The bypass pass-through for one channel in the FilterDSPKernel variant
(src/Shared/AudioUnit/Support/FilterDSPKernel.hpp, lines 191-205): a
per-sample copy of frameCount samples starting at bufferOffset, skipped
when the buffers alias. -/
def auBypassChannel (aliased : Bool) (dst src : List ℚ) (bufferOffset frameCount : Nat) :
    List ℚ :=
  if aliased then dst
  else (List.range dst.length).map fun i =>
    if bufferOffset ≤ i ∧ i < bufferOffset + frameCount then src.getD i 0 else dst.getD i 0

/-- C3 (evaluation of the code at the failing input): with bypass enabled,
distinct buffers, an 8-frame segment at offset 0 and input samples 1..8,
the Kernel-variant pass-through transfers only 8 bytes — two float
samples — so the output is not a copy of the segment; the FilterDSPKernel
variant of the same step copies all 8 samples. -/
theorem kernelBypass_copies_bytes_not_samples :
    kernelBypassChannel false (List.replicate 8 0) [1, 2, 3, 4, 5, 6, 7, 8] 0 8 =
      [1, 2, 0, 0, 0, 0, 0, 0] ∧
    kernelBypassChannel false (List.replicate 8 0) [1, 2, 3, 4, 5, 6, 7, 8] 0 8 ≠
      [1, 2, 3, 4, 5, 6, 7, 8] ∧
    auBypassChannel false (List.replicate 8 0) [1, 2, 3, 4, 5, 6, 7, 8] 0 8 =
      [1, 2, 3, 4, 5, 6, 7, 8] :=
  ⟨by decide, by decide, by decide⟩

/-- One frame of FilterDSPKernel::renderFrames (non-bypass path): step both
rampers once, recompute the lowpass coefficients from the ramped cutoff
(scaled by the Nyquist frequency) and the ramped resonance, then run the
biquad recursion on every channel; xs holds this frame's input sample for
each channel. Returns (per-channel outputs, cutoff ramper, resonance
ramper, coefficients, delay states). -/
def auProcessFrame (o : FloatOracle) (nyquist : ℚ) (cr rr : ParameterRamper)
    (states : List FilterState) (xs : List ℚ) :
    List ℚ × ParameterRamper × ParameterRamper × BiquadCoefficients × List FilterState :=
  let cStep := cr.getAndStep
  let rStep := rr.getAndStep
  let c := calculateLopassParams o (cStep.1 * nyquist) rStep.1
  let results := (states.zip xs).map fun p => biquadFrame c p.1 p.2
  (results.map Prod.fst, cStep.2, rStep.2, c, results.map Prod.snd)

/-- The frame loop of FilterDSPKernel::renderFrames, with the input buffer
given frame-major (one list of per-channel samples per frame of the
segment). -/
def auFilterFrames (o : FloatOracle) (nyquist : ℚ) :
    List (List ℚ) → ParameterRamper → ParameterRamper → BiquadCoefficients →
      List FilterState →
      List (List ℚ) × ParameterRamper × ParameterRamper × BiquadCoefficients ×
        List FilterState
  | [], cr, rr, c, states => ([], cr, rr, c, states)
  | xs :: rest, cr, rr, _, states =>
    match auProcessFrame o nyquist cr rr states xs with
    | (ys, cr1, rr1, c1, states1) =>
      match auFilterFrames o nyquist rest cr1 rr1 c1 states1 with
      | (yss, cr2, rr2, c2, states2) => (ys :: yss, cr2, rr2, c2, states2)

/-- FilterDSPKernel::renderFrames, non-bypass path (lines 208-243): start
ramping both parameters for this segment, run the frame loop, then — only
after the whole loop — sanitize every channel's delay state with
convertBadStateValuesToZero. -/
def auRenderFrames (o : FloatOracle) (k : AUFilterKernel) (inputs : List (List ℚ)) :
    List (List ℚ) × AUFilterKernel :=
  match auFilterFrames o k.nyquist inputs (k.cutoffRamper.startRamping k.rampDuration)
      (k.resonanceRamper.startRamping k.rampDuration) k.coeffs k.channelStates with
  | (yss, cr2, rr2, c2, states2) =>
    (yss, { k with
            cutoffRamper := cr2, resonanceRamper := rr2, coeffs := c2,
            channelStates := states2.map FilterState.convertBadStateValuesToZero })

/-- A value that survived (or was produced by) sanitization: zero, or of
magnitude within [1e-15, 1e15]. -/
def sanitizedValue (x : ℚ) : Prop :=
  x = 0 ∨ (1 / 10 ^ 15 ≤ |x| ∧ |x| ≤ 10 ^ 15)

lemma convertBadValuesToZero_sanitized (v : ℚ) : sanitizedValue (convertBadValuesToZero v) := by
  unfold convertBadValuesToZero sanitizedValue
  split
  · right
    assumption
  · left
    rfl

/-- A concrete instantiation of the math-library oracle, used only in the
closed evaluations below. -/
def oracle0 : FloatOracle :=
  ⟨0, fun _ _ => 1, fun _ => 0, fun _ => 0, fun _ => 0, fun _ => 0⟩

/-- The constructed FilterDSPKernel after setFormat(44100 Hz, 1 channel),
used only in the closed evaluations below. -/
def demoKernel : AUFilterKernel := AUFilterKernel.mkInit.setFormat 44100 1

/-- demoKernel with every derived field evaluated. -/
def demoKernelE : AUFilterKernel :=
  { channelStates := [FilterState.zero], coeffs := ⟨0, 0, 0, 0, 0⟩,
    sampleRate := 44100, nyquist := 22050, inverseNyquist := 1 / 22050,
    rampDuration := 882,
    cutoffRamper := ParameterRamper.mkInit (400 / 44100),
    resonanceRamper := ParameterRamper.mkInit 20, bypassed := false }

lemma demoKernel_eq : demoKernel = demoKernelE := by
  have h882 : ((1 / 50 : ℚ) * 44100) = (882 : ℚ) := by norm_num
  unfold demoKernel demoKernelE AUFilterKernel.mkInit AUFilterKernel.setFormat resizeStates
  rw [h882]
  norm_num [ParameterRamper.mkInit, ParameterRamper.setImmediate, ParameterRamper.reset]
  decide

/-- C7 (counterexample): sanitization runs only after the whole segment,
not before each next frame. With a first input sample of 10^16 (one
channel, two frames), the delay state entering frame 1 still holds the
degenerate values produced at frame 0 (x1 = 10^16, y1 = 5·10^15 — values
convertBadStateValuesToZero would zero), frame 1's output 10^16 is
computed from them, and the same frame computed from the sanitized state
would instead produce 0. -/
theorem renderFrames_uses_unsanitized_state_next_frame :
    (auFilterFrames oracle0 demoKernel.nyquist [[10 ^ 16]]
        (demoKernel.cutoffRamper.startRamping demoKernel.rampDuration)
        (demoKernel.resonanceRamper.startRamping demoKernel.rampDuration)
        demoKernel.coeffs demoKernel.channelStates).2.2.2.2 =
      [⟨10 ^ 16, 0, 5 * 10 ^ 15, 0⟩] ∧
    FilterState.convertBadStateValuesToZero ⟨10 ^ 16, 0, 5 * 10 ^ 15, 0⟩ =
      FilterState.zero ∧
    (auRenderFrames oracle0 demoKernel [[10 ^ 16], [0]]).1 =
      [[5 * 10 ^ 15], [10 ^ 16]] ∧
    (biquadFrame (calculateLopassParams oracle0 (400 / 44100 * 22050) 20)
        FilterState.zero 0).1 = 0 := by
  refine ⟨?_, ?_, ?_, ?_⟩
  · simp only [demoKernel_eq]
    norm_num [demoKernelE, auFilterFrames, auProcessFrame, ParameterRamper.startRamping,
      ParameterRamper.getAndStep, ParameterRamper.mkInit, ParameterRamper.setImmediate,
      calculateLopassParams, oracle0, biquadFrame, FilterState.zero]
  · norm_num [FilterState.convertBadStateValuesToZero, convertBadValuesToZero,
      FilterState.zero]
  · simp only [demoKernel_eq]
    norm_num [demoKernelE, auRenderFrames, auFilterFrames, auProcessFrame,
      ParameterRamper.startRamping, ParameterRamper.getAndStep, ParameterRamper.mkInit,
      ParameterRamper.setImmediate, calculateLopassParams, oracle0, biquadFrame,
      FilterState.zero]
  · norm_num [biquadFrame, calculateLopassParams, oracle0, FilterState.zero]

/-- C7 (amended): renderFrames sanitizes once per segment, after its frame
loop — every delay-state component the call leaves behind is zero or of
magnitude within [1e-15, 1e15], so the next segment of the render call,
and the next render call, start from a sanitized state. -/
theorem renderFrames_sanitizes_after_segment (o : FloatOracle) (k : AUFilterKernel)
    (inputs : List (List ℚ)) (st : FilterState)
    (hst : st ∈ (auRenderFrames o k inputs).2.channelStates) :
    sanitizedValue st.x1 ∧ sanitizedValue st.x2 ∧
      sanitizedValue st.y1 ∧ sanitizedValue st.y2 := by
  rcases hL : auFilterFrames o k.nyquist inputs
      (k.cutoffRamper.startRamping k.rampDuration)
      (k.resonanceRamper.startRamping k.rampDuration)
      k.coeffs k.channelStates with ⟨yss, cr2, rr2, c2, states2⟩
  have hst2 : st ∈ states2.map FilterState.convertBadStateValuesToZero := by
    have h := hst
    unfold auRenderFrames at h
    rw [hL] at h
    simpa using h
  obtain ⟨st0, -, rfl⟩ := List.mem_map.mp hst2
  exact ⟨convertBadValuesToZero_sanitized st0.x1, convertBadValuesToZero_sanitized st0.x2,
    convertBadValuesToZero_sanitized st0.y1, convertBadValuesToZero_sanitized st0.y2⟩

/-- Witness for renderFrames_sanitizes_after_segment at a concrete input. -/
theorem renderFrames_sanitizes_after_segment_witness :
    FilterState.zero ∈ (auRenderFrames oracle0 demoKernel [[10 ^ 16], [0]]).2.channelStates ∧
    (sanitizedValue FilterState.zero.x1 ∧ sanitizedValue FilterState.zero.x2 ∧
      sanitizedValue FilterState.zero.y1 ∧ sanitizedValue FilterState.zero.y2) := by
  have hmem : FilterState.zero ∈
      (auRenderFrames oracle0 demoKernel [[10 ^ 16], [0]]).2.channelStates := by
    simp only [demoKernel_eq]
    norm_num [demoKernelE, auRenderFrames, auFilterFrames, auProcessFrame,
      ParameterRamper.startRamping, ParameterRamper.getAndStep, ParameterRamper.mkInit,
      ParameterRamper.setImmediate, calculateLopassParams, oracle0, biquadFrame,
      FilterState.zero, FilterState.convertBadStateValuesToZero, convertBadValuesToZero]
  exact ⟨hmem, renderFrames_sanitizes_after_segment oracle0 demoKernel [[10 ^ 16], [0]]
    FilterState.zero hmem⟩

/-- The observable contents behind the opaque vDSP_biquadm setup handle:
the coefficient array installed at creation and the targets installed
later through vDSP_biquadm_SetTargetsDouble. -/
structure VDSPSetup where
  coeffs : List ℚ
  targets : List ℚ
deriving DecidableEq

/-- BiquadFilter state (src/Shared/Kernel/BiquadFilter.hpp): the flat
coefficient array F_ (five entries per channel), the setup handle (none =
nullptr) with a counter of vDSP_biquadm_CreateSetup calls so that a
reallocation is observable, the memoization fields, and the constant
SetTargets parameters. -/
structure BiquadFilter where
  F : List ℚ
  setup : Option VDSPSetup
  allocations : Nat
  lastFrequency : ℚ
  lastResonance : ℚ
  lastNumChannels : Nat
  threshold : ℚ
  updateRate : ℚ
deriving DecidableEq

/-- The BiquadFilter member initialisers: lastFrequency_ = -1.0,
lastResonance_ = 1E10, lastNumChannels_ = 0, setup_ = nullptr,
threshold_ = 0.05, updateRate_ = 0.4. -/
def BiquadFilter.mkInit : BiquadFilter :=
  { F := [], setup := none, allocations := 0, lastFrequency := -1,
    lastResonance := 10 ^ 10, lastNumChannels := 0, threshold := 1 / 20,
    updateRate := 2 / 5 }

/-- BiquadFilter::calculateParams (src/Shared/Kernel/BiquadFilter.cpp,
lines 7-44). Returns immediately when (frequency, resonance, numChannels)
equal the memoized triple — the nyquistPeriod argument is not part of that
guard. Otherwise it recomputes the five coefficients per channel from
frequencyRads = pi * frequency * nyquistPeriod, then either installs them
as interpolation targets on the existing setup (same channel count) or
destroys and recreates the setup, and records the new triple. -/
def BiquadFilter.calculateParams (o : FloatOracle) (frequency resonance nyquistPeriod : ℚ)
    (numChannels : Nat) (s : BiquadFilter) : BiquadFilter :=
  if s.lastFrequency = frequency ∧ s.lastResonance = resonance ∧
      numChannels = s.lastNumChannels then s
  else
    let frequencyRads := o.piQ * frequency * nyquistPeriod
    let r := o.powQ 10 (1 / 20 * -resonance)
    let k := 1 / 2 * r * o.sinQ frequencyRads
    let c1 := (1 - k) / (1 + k)
    let c2 := (1 + c1) * o.cosQ frequencyRads
    let c3 := (1 + c1 - c2) * (1 / 4)
    let F1 := (List.replicate numChannels [c3, c3 + c3, c3, -c2, c1]).flatten
    match s.setup with
    | some st =>
      if numChannels = s.lastNumChannels then
        { s with
          F := F1, setup := some { st with targets := F1 },
          lastFrequency := frequency, lastResonance := resonance,
          lastNumChannels := numChannels }
      else
        { s with
          F := F1, setup := some ⟨F1, []⟩, allocations := s.allocations + 1,
          lastFrequency := frequency, lastResonance := resonance,
          lastNumChannels := numChannels }
    | none =>
      { s with
        F := F1, setup := some ⟨F1, []⟩, allocations := s.allocations + 1,
        lastFrequency := frequency, lastResonance := resonance,
        lastNumChannels := numChannels }

lemma calculateParams_memo_fields (o : FloatOracle) (f res nyq : ℚ) (n : Nat)
    (s : BiquadFilter) :
    (BiquadFilter.calculateParams o f res nyq n s).lastFrequency = f ∧
    (BiquadFilter.calculateParams o f res nyq n s).lastResonance = res ∧
    (BiquadFilter.calculateParams o f res nyq n s).lastNumChannels = n := by
  unfold BiquadFilter.calculateParams
  by_cases h : s.lastFrequency = f ∧ s.lastResonance = res ∧ n = s.lastNumChannels
  · rw [if_pos h]
    exact ⟨h.1, h.2.1, h.2.2.symm⟩
  · rw [if_neg h]
    split
    · split <;> simp
    · simp

lemma calculateParams_memoized_aux (o o' : FloatOracle) (f res nyq nyq' : ℚ)
    (n : Nat) (s : BiquadFilter) :
    BiquadFilter.calculateParams o' f res nyq' n
        (BiquadFilter.calculateParams o f res nyq n s) =
      BiquadFilter.calculateParams o f res nyq n s := by
  obtain ⟨h1, h2, h3⟩ := calculateParams_memo_fields o f res nyq n s
  generalize hs : BiquadFilter.calculateParams o f res nyq n s = t at h1 h2 h3 ⊢
  rw [BiquadFilter.calculateParams, if_pos ⟨h1, h2, h3.symm⟩]

/-- C6: a second calculateParams call whose (frequency, resonance,
channelCount) triple equals the previous call's — whatever its
nyquistPeriod argument or math-library behaviour — is a no-op: the
memoization guard returns at once, leaving every field of the filter state
(coefficient array, setup handle and its targets, allocation count,
memoized triple) identical, so nothing is recomputed, reallocated or
rebuilt. -/
theorem calculateParams_second_call_noop (o o' : FloatOracle) (f res nyq nyq' : ℚ)
    (n : Nat) (s : BiquadFilter) :
    BiquadFilter.calculateParams o' f res nyq' n
        (BiquadFilter.calculateParams o f res nyq n s) =
      BiquadFilter.calculateParams o f res nyq n s :=
  calculateParams_memoized_aux o o' f res nyq nyq' n s

/-- FilterDSPKernel of the Kernel variant
(src/Shared/Kernel/FilterDSPKernel.hpp): owns the BiquadFilter and plain
cutoff/resonance parameter values. -/
structure KFilterKernel where
  filter : BiquadFilter
  sampleRate : ℚ
  channelCount : Nat
  nyquistFrequency : ℚ
  nyquistPeriod : ℚ
  cutoff : ℚ
  resonance : ℚ
deriving DecidableEq

/-- The KFilterKernel constructor: cutoff 400 Hz, resonance 20 dB, then an
initial calculateParams for 2 channels at the default Nyquist period. -/
def KFilterKernel.mkInit (o : FloatOracle) : KFilterKernel :=
  { filter := BiquadFilter.calculateParams o 400 20 (1 / 22050) 2 BiquadFilter.mkInit,
    sampleRate := 44100, channelCount := 1, nyquistFrequency := 22050,
    nyquistPeriod := 1 / 22050, cutoff := 400, resonance := 20 }

/-- FilterDSPKernel::startProcessing (lines 24-32): record the new sample
rate, Nyquist frequency and period, and channel count. (The base-class
call only touches the input buffer.) The BiquadFilter memoization is not
invalidated here, and BiquadFilter offers no operation that could
invalidate it. -/
def KFilterKernel.startProcessing (s : KFilterKernel) (sampleRate : ℚ)
    (channelCount : Nat) : KFilterKernel :=
  { s with
    sampleRate := sampleRate, nyquistFrequency := 1 / 2 * sampleRate,
    nyquistPeriod := 1 / (1 / 2 * sampleRate), channelCount := channelCount }

/-- FilterDSPKernel::handleRendering (lines 73-76): recompute (or skip via
memoization) the coefficients for the current cutoff, resonance and
per-call channel count at the current Nyquist period; the subsequent
vDSP_biquadm apply is an external routine. -/
def KFilterKernel.handleRendering (o : FloatOracle) (s : KFilterKernel)
    (numChannels : Nat) : KFilterKernel :=
  { s with
    filter := BiquadFilter.calculateParams o s.cutoff s.resonance
      s.nyquistPeriod numChannels s.filter }

/-- C5 (evaluation of the code at the failing input): startProcessing with
a new sample rate of 88200 Hz halves the Nyquist period, yet the next
handleRendering (same cutoff 400, resonance 20, channel count 2) leaves
the coefficient state bit-identical: the memoization guard tests only
(frequency, resonance, channelCount) and nothing invalidates it on a
format change, so the coefficients stay those computed for the old sample
rate. -/
theorem handleRendering_stale_after_format_change (o : FloatOracle) :
    ((KFilterKernel.mkInit o).startProcessing 88200 2).nyquistPeriod ≠
      (KFilterKernel.mkInit o).nyquistPeriod ∧
    (KFilterKernel.handleRendering o
        ((KFilterKernel.mkInit o).startProcessing 88200 2) 2).filter =
      ((KFilterKernel.mkInit o).startProcessing 88200 2).filter := by
  constructor
  · show (1 / (1 / 2 * 88200) : ℚ) ≠ 1 / 22050
    norm_num
  · exact calculateParams_memoized_aux o o 400 20 (1 / 22050)
      (1 / (1 / 2 * 88200)) 2 BiquadFilter.mkInit

/-- filterBadValues (src/Shared/Kernel/BiquadFilter.cpp, line 54): pass x
through only when fabs(x) > 1e-15 and fabs(x) < 1e15 and x != 0, else
return the neutral value 1.0. -/
def filterBadValues (x : ℚ) : ℚ :=
  if 1 / 10 ^ 15 < |x| ∧ |x| < 10 ^ 15 ∧ x ≠ 0 then x else 1

/-- The magnitude of H(z) at the unit-circle point of angle
theta = pi * inverseNyquist * f, computed exactly as the loop body of
BiquadFilter::magnitudes computes it from the first channel's coefficients
F[B0..A2] (indices 0..4). A zero denominator yields 0 here where the float
code yields inf or NaN; either way filterBadValues replaces it by 1.0. -/
def BiquadFilter.responseAt (o : FloatOracle) (s : BiquadFilter)
    (inverseNyquist f : ℚ) : ℚ :=
  let theta := o.piQ * inverseNyquist * f
  let zReal := o.cosQ theta
  let zImag := o.sinQ theta
  let zReal2 := zReal * zReal
  let zImag2 := zImag * zImag
  let numerReal := s.F.getD 0 0 * (zReal2 - zImag2) + s.F.getD 1 0 * zReal + s.F.getD 2 0
  let numerImag := 2 * s.F.getD 0 0 * zReal * zImag + s.F.getD 1 0 * zImag
  let numerMag := o.sqrtQ (numerReal * numerReal + numerImag * numerImag)
  let denomReal := zReal2 - zImag2 + s.F.getD 3 0 * zReal + s.F.getD 4 0
  let denomImag := 2 * zReal * zImag + s.F.getD 3 0 * zImag
  let denomMag := o.sqrtQ (denomReal * denomReal + denomImag * denomImag)
  numerMag / denomMag

/-- BiquadFilter::magnitudes (src/Shared/Kernel/BiquadFilter.cpp, lines
58-81): for every input frequency, write 20 * log10 of the clamped
magnitude ratio. -/
def BiquadFilter.magnitudes (o : FloatOracle) (s : BiquadFilter)
    (frequencies : List ℚ) (inverseNyquist : ℚ) : List ℚ :=
  frequencies.map fun f =>
    20 * o.log10Q (filterBadValues (BiquadFilter.responseAt o s inverseNyquist f))

/-- The degenerate magnitude ratios named by the specification: zero,
magnitude below 1e-15, or magnitude above 1e15 (NaN has no rational
representative). -/
def claimDegenerate (x : ℚ) : Prop :=
  x = 0 ∨ |x| < 1 / 10 ^ 15 ∨ 10 ^ 15 < |x|

lemma filterBadValues_of_degenerate (x : ℚ) (h : claimDegenerate x) :
    filterBadValues x = 1 := by
  unfold filterBadValues
  rcases h with h | h | h
  · simp [h]
  · exact if_neg fun hc => lt_asymm h hc.1
  · exact if_neg fun hc => lt_asymm h hc.2.1

/-- C9: the i-th output of magnitudes is 20·log10 of the clamped magnitude
of H(z) at z = e^{j·pi·f/nyquist} for the i-th input frequency, and
whenever that magnitude ratio is degenerate in the specification's sense
(zero, magnitude below 1e-15 or above 1e15; NaN in float) the ratio is
replaced by 1.0 before the logarithm, so — log10 1 being 0 — the output
entry is exactly 0 dB. -/
theorem magnitudes_clamp_degenerate (o : FloatOracle) (s : BiquadFilter)
    (frequencies : List ℚ) (inverseNyquist : ℚ) (i : Nat)
    (hi : i < frequencies.length) (hlog : o.log10Q 1 = 0) :
    (BiquadFilter.magnitudes o s frequencies inverseNyquist).getD i 0 =
      20 * o.log10Q (filterBadValues
        (BiquadFilter.responseAt o s inverseNyquist (frequencies.getD i 0))) ∧
    (claimDegenerate (BiquadFilter.responseAt o s inverseNyquist (frequencies.getD i 0)) →
      (BiquadFilter.magnitudes o s frequencies inverseNyquist).getD i 0 = 0) := by
  have hmap : (BiquadFilter.magnitudes o s frequencies inverseNyquist).getD i 0 =
      20 * o.log10Q (filterBadValues
        (BiquadFilter.responseAt o s inverseNyquist (frequencies.getD i 0))) := by
    unfold BiquadFilter.magnitudes
    rw [List.getD_eq_getElem _ _ (by simpa using hi), List.getElem_map,
      List.getD_eq_getElem _ _ hi]
  refine ⟨hmap, fun hdeg => ?_⟩
  rw [hmap, filterBadValues_of_degenerate _ hdeg, hlog, mul_zero]

/-- Witness for magnitudes_clamp_degenerate at a concrete input: with the
concrete oracle (whose square root returns 0) the ratio at frequency 5 is
0, degenerate, and the output entry is 0 dB. -/
theorem magnitudes_clamp_degenerate_witness :
    0 < ([5] : List ℚ).length ∧ oracle0.log10Q 1 = 0 ∧
    ((BiquadFilter.magnitudes oracle0 BiquadFilter.mkInit [5] (1 / 22050)).getD 0 0 =
      20 * oracle0.log10Q (filterBadValues
        (BiquadFilter.responseAt oracle0 BiquadFilter.mkInit (1 / 22050)
          (([5] : List ℚ).getD 0 0))) ∧
    (claimDegenerate (BiquadFilter.responseAt oracle0 BiquadFilter.mkInit (1 / 22050)
        (([5] : List ℚ).getD 0 0)) →
      (BiquadFilter.magnitudes oracle0 BiquadFilter.mkInit [5] (1 / 22050)).getD 0 0 = 0)) :=
  ⟨by decide, by norm_num [oracle0],
    magnitudes_clamp_degenerate oracle0 BiquadFilter.mkInit [5] (1 / 22050) 0
      (by decide) (by norm_num [oracle0])⟩

/-- OSStatus noErr. -/
def noErr : Int := 0

/-- kAudioUnitErr_NoConnection. -/
def kAudioUnitErrNoConnection : Int := -10876

/-- InputBuffer bookkeeping (src/Shared/Kernel/InputBuffer.hpp): the
frameLength of its PCM buffer and the byte size written into the mutable
buffer list by prepareInputBufferList. -/
structure InputBuffer where
  frameLength : Nat
  preparedByteSize : Nat
deriving DecidableEq

/-- InputBuffer::prepareInputBufferList: mDataByteSize = frameCount *
sizeof(float). -/
def InputBuffer.prepareInputBufferList (ib : InputBuffer) (frameCount : Nat) : InputBuffer :=
  { ib with preparedByteSize := 4 * frameCount }

/-- InputBuffer::pullInput (lines 43-55): a null pull block returns
kAudioUnitErr_NoConnection at once, mutating nothing; otherwise the buffer
list is prepared, the block pulls (it is modelled by the status it
returns), and frameLength records frameCount on success or 0 on failure. -/
def InputBuffer.pullInput (ib : InputBuffer) (frameCount : Nat)
    (pullInputBlock : Option Int) : Int × InputBuffer :=
  match pullInputBlock with
  | none => (kAudioUnitErrNoConnection, ib)
  | some status =>
    (status,
      { ib.prepareInputBufferList frameCount with
        frameLength := if status = noErr then frameCount else 0 })

/-- The buffer bookkeeping of KernelEventProcessor: its input buffer and
whether the segment buffer pointers (inputs_/outputs_ and the ins_/outs_
vectors) are currently populated; clearBuffers leaves them cleared between
calls. -/
structure EventProcessorState where
  inputBuffer : InputBuffer
  buffersSet : Bool
  bypassed : Bool
deriving DecidableEq

/-- KernelEventProcessor::processAndRender (lines 70-95): pull upstream
samples; on a non-noErr status return it at once — no segment rendered, no
event dispatched, segment buffer pointers untouched. On success set the
buffers, run the render loop (returning its action trace), and clear the
buffers again. -/
def processAndRender (s : EventProcessorState) (t0 : Int) (frameCount : Nat)
    (events : List Event) (pullInputBlock : Option Int) :
    Int × List Action × EventProcessorState :=
  match s.inputBuffer.pullInput frameCount pullInputBlock with
  | (status, ib1) =>
    if status ≠ noErr then (status, [], { s with inputBuffer := ib1 })
    else
      (noErr, (render t0 frameCount events).getD [],
        { s with inputBuffer := ib1, buffersSet := false })

/-- C8: when the upstream pull fails — any non-noErr status, in particular
kAudioUnitErr_NoConnection when the pull block is null — processAndRender
returns that status immediately: the action trace is empty (no frames
rendered, no events dispatched) and the segment buffer bookkeeping is
untouched, so the next render call starts from a clean state (on the
failure path the input buffer records only frameLength = 0, its clean
value). -/
theorem processAndRender_propagates_pull_failure (s : EventProcessorState) (t0 : Int)
    (frameCount : Nat) (events : List Event) (pullInputBlock : Option Int)
    (hfail : (s.inputBuffer.pullInput frameCount pullInputBlock).1 ≠ noErr) :
    processAndRender s t0 frameCount events pullInputBlock =
      ((s.inputBuffer.pullInput frameCount pullInputBlock).1, [],
        { s with inputBuffer := (s.inputBuffer.pullInput frameCount pullInputBlock).2 }) ∧
    (processAndRender s t0 frameCount events pullInputBlock).2.2.buffersSet =
      s.buffersSet ∧
    (pullInputBlock = none →
      (processAndRender s t0 frameCount events pullInputBlock).1 =
        kAudioUnitErrNoConnection) := by
  rcases hp : s.inputBuffer.pullInput frameCount pullInputBlock with ⟨status, ib1⟩
  have hst : status ≠ noErr := by
    rw [hp] at hfail
    exact hfail
  have hpr : processAndRender s t0 frameCount events pullInputBlock =
      (status, [], { s with inputBuffer := ib1 }) := by
    unfold processAndRender
    rw [hp]
    simp [hst]
  refine ⟨by simp [hpr, hp], by rw [hpr], fun hnone => ?_⟩
  rw [hpr]
  subst hnone
  have h2 := congrArg Prod.fst hp
  simpa [InputBuffer.pullInput] using h2.symm

/-- Witness for processAndRender_propagates_pull_failure at a concrete
input: a null pull block. -/
theorem processAndRender_propagates_pull_failure_witness :
    ((⟨⟨0, 0⟩, false, false⟩ : EventProcessorState).inputBuffer.pullInput 512 none).1 ≠
      noErr ∧
    (processAndRender ⟨⟨0, 0⟩, false, false⟩ 0 512 [] none).1 = kAudioUnitErrNoConnection :=
  ⟨by decide,
    (processAndRender_propagates_pull_failure ⟨⟨0, 0⟩, false, false⟩ 0 512 [] none
      (by decide)).2.2 rfl⟩

end LPF
